import Mathlib

set_option maxRecDepth 100000

/-
  Verification of the indexed-allocation inode layer of a pintos file system
  (src/filesys/inode.c).  The C code is shallowly embedded: the on-disk inode,
  index blocks and the block device become explicit Lean data, signed C
  integers (off_t, int) become Int with C truncating division (Int.tdiv /
  Int.tmod), and block_sector_t becomes Nat with the all-ones sentinel value
  4294967295 standing for the C literal (block_sector_t) -1.
-/

/-- The all-ones 32-bit sentinel, the value of (block_sector_t) -1 in the C
source; it marks an unallocated pointer slot. -/
def SENT : Nat := 4294967295

/-- On-disk inode (struct inode_disk): 10 direct pointers, one single-indirect
pointer, one double-indirect pointer and a signed byte length.  The magic tag
and padding carry no information and are omitted. -/
structure InodeDisk where
  direct : List Nat
  single_level : Nat
  double_level : Nat
  length : Int
deriving DecidableEq

/-- Content of one device sector, viewed at the type the C code reads it at:
a data sector of bytes, an index block of 128 pointers (struct
inode_disk_level), or an on-disk inode. -/
inductive SectorData where
  | bytes (data : List Nat)
  | index (entries : List Nat)
  | node (d : InodeDisk)
deriving DecidableEq

/-- The file-system state outside the in-memory inode: the block device as a
total map from sector number to content, the free-map as the queue of sector
numbers that free_map_allocate hands out in order, and the log of sectors
passed to free_map_release, in call order. -/
structure FS where
  disk : Nat → SectorData
  freeList : List Nat
  released : List Nat

/-- block_write: replace the content of one sector. -/
def FS.writeSector (fs : FS) (s : Nat) (v : SectorData) : FS :=
  { fs with disk := fun n => if n = s then v else fs.disk n }

/-- free_map_release of a single sector: the sector returns to the allocator
supply and is appended to the release log. -/
def FS.release (fs : FS) (s : Nat) : FS :=
  { fs with freeList := fs.freeList ++ [s], released := fs.released ++ [s] }

/-- block_read of a sector interpreted as an index block.  Reading a sector
that does not hold an index block (for instance reading through a sentinel
pointer) yields unspecified device content, modelled as all-sentinel. -/
def readIndex (fs : FS) (s : Nat) : List Nat :=
  match fs.disk s with
  | .index e => e
  | _ => List.replicate 128 SENT

/-- block_read of a sector interpreted as 512 data bytes. -/
def readBytes (fs : FS) (s : Nat) : List Nat :=
  match fs.disk s with
  | .bytes b => b
  | _ => List.replicate 512 0

/-- block_read of a sector interpreted as an on-disk inode. -/
def readNode (fs : FS) (s : Nat) : InodeDisk :=
  match fs.disk s with
  | .node d => d
  | _ => ⟨List.replicate 10 SENT, SENT, SENT, 0⟩

/-- In-memory inode (struct inode): identity sector, open count, removed
flag, deny-write count and the cached on-disk inode.  The intrusive list
element and the lock have no sequential content. -/
structure Inode where
  sector : Nat
  open_cnt : Int
  removed : Bool
  deny_write_cnt : Int
  data : InodeDisk
deriving DecidableEq

/-- byte_to_sector from the source: quotient = pos / 512; direct slot when
quotient < 10; else, minus 10, an entry of the single-indirect index block
when < 128; else, minus 128, entry (quotient mod 128) of the inner index
block found at entry (quotient / 128) of the double-indirect block when
< 128 * 128; else (block_sector_t) -1.  Signed C division is Int.tdiv. -/
def byte_to_sector (fs : FS) (d : InodeDisk) (pos : Int) : Nat :=
  let quotient := pos.tdiv 512
  if quotient < 10 then
    d.direct.getD quotient.toNat 0
  else
    let q1 := quotient - 10
    if q1 < 128 then
      (readIndex fs d.single_level).getD q1.toNat 0
    else
      let q2 := q1 - 128
      if q2 < 128 * 128 then
        let remainder := q2.tmod 128
        let outer := q2.tdiv 128
        (readIndex fs ((readIndex fs d.double_level).getD outer.toNat 0)).getD
          remainder.toNat 0
      else
        SENT

/-- The translation function exactly as claim C5 words it, over natural byte
offsets: q = offset div sector_size; direct[q] when q < 10; entry q - 10 of
the single-indirect index block when q - 10 < 128; otherwise entry
((q - 138) mod 128) of the inner index block that is entry ((q - 138) / 128)
of the double-indirect outer block when q - 138 < 128 * 128; otherwise the
invalid marker.  Whatever pointer is stored is returned unvalidated. -/
def translate_spec (fs : FS) (d : InodeDisk) (off : Nat) : Nat :=
  let q := off / 512
  if q < 10 then
    d.direct.getD q 0
  else if q - 10 < 128 then
    (readIndex fs d.single_level).getD (q - 10) 0
  else if q - 138 < 128 * 128 then
    (readIndex fs ((readIndex fs d.double_level).getD ((q - 138) / 128) 0)).getD
      ((q - 138) % 128) 0
  else
    SENT

theorem tdiv512_natCast (m : Nat) : ((m : Int)).tdiv 512 = ((m / 512 : Nat) : Int) := rfl

theorem tdiv128_natCast (m : Nat) : ((m : Int)).tdiv 128 = ((m / 128 : Nat) : Int) := rfl

theorem tmod128_natCast (m : Nat) : ((m : Int)).tmod 128 = ((m % 128 : Nat) : Int) := rfl

theorem toNat_natCast_eq (m : Nat) : ((m : Int)).toNat = m := rfl

/-- C5: byte_to_sector computes, for every byte offset, exactly the three-tier
lookup described by the claim, returning the stored pointer (sentinel
included) without validation, and the invalid marker past capacity. -/
theorem byte_to_sector_matches_translate_spec (fs : FS) (d : InodeDisk) (off : Nat) :
    byte_to_sector fs d (off : Int) = translate_spec fs d off := by
  simp only [byte_to_sector, translate_spec, tdiv512_natCast]
  by_cases h10 : off / 512 < 10
  · rw [if_pos (show ((off / 512 : Nat) : Int) < 10 by exact_mod_cast h10), if_pos h10,
      toNat_natCast_eq]
  · rw [if_neg (show ¬ ((off / 512 : Nat) : Int) < 10 by exact_mod_cast h10), if_neg h10]
    have h10' : 10 ≤ off / 512 := Nat.le_of_not_lt h10
    have hsub10 : ((off / 512 : Nat) : Int) - 10 = ((off / 512 - 10 : Nat) : Int) := by
      omega
    rw [hsub10]
    by_cases h128 : off / 512 - 10 < 128
    · rw [if_pos (show ((off / 512 - 10 : Nat) : Int) < 128 by exact_mod_cast h128),
        if_pos h128, toNat_natCast_eq]
    · rw [if_neg (show ¬ ((off / 512 - 10 : Nat) : Int) < 128 by exact_mod_cast h128),
        if_neg h128]
      have h128' : 128 ≤ off / 512 - 10 := Nat.le_of_not_lt h128
      have hsub128 : ((off / 512 - 10 : Nat) : Int) - 128 = ((off / 512 - 138 : Nat) : Int) := by
        omega
      rw [hsub128]
      by_cases hdd : off / 512 - 138 < 128 * 128
      · rw [if_pos (show ((off / 512 - 138 : Nat) : Int) < 128 * 128 by exact_mod_cast hdd),
          if_pos hdd, tmod128_natCast, tdiv128_natCast, toNat_natCast_eq, toNat_natCast_eq]
      · rw [if_neg (show ¬ ((off / 512 - 138 : Nat) : Int) < 128 * 128 by exact_mod_cast hdd),
          if_neg hdd]

/-- free_map_allocate of one sector, as file_extension uses it with the
return value ignored: pop the head of the free queue; on an empty free map
the C variable stays uninitialized, modelled as sector 0. -/
def allocOne (fl : List Nat) : Nat × List Nat :=
  match fl with
  | [] => (0, [])
  | x :: xs => (x, xs)

/-- One tier-filling loop of file_extension: walk the pointer slots in order
and place the next supply sector into each sentinel slot; after each
placement the C code checks slist[iter] and jumps to fin when it is the -1
terminator.  Returns (new slots, remaining supply, jumped-to-fin flag,
placed-anything flag). -/
def fillSlots : List Nat → List Nat → List Nat × List Nat × Bool × Bool
  | [], supply => ([], supply, false, false)
  | s :: rest, supply =>
    if s = SENT then
      match supply with
      | [] => (s :: rest, [], true, false)
      | v :: vs =>
        if vs.isEmpty then (v :: rest, [], true, true)
        else
          let r := fillSlots rest vs
          (v :: r.1, r.2.1, r.2.2.1, true)
    else
      let r := fillSlots rest supply
      (s :: r.1, r.2.1, r.2.2.1, r.2.2.2)

/-- Result of the double-indirect loop of file_extension: the updated outer
index entries, the state after its allocator calls and block writes, the
remaining supply, whether the loop jumped to fin from inside an inner block,
the outer entry the fin code writes the cached inner block back to
(level2_1->index[i], with i decremented when the loop ran to completion),
and that cached inner block (level2_2). -/
structure DoubleRes where
  outer : List Nat
  fs : FS
  supply : List Nat
  stopped : Bool
  target : Nat
  inner : List Nat

/-- The double-indirect loop of file_extension: for each outer entry, ensure
an inner index block exists (allocating a sector and an all-sentinel block
when the entry is the sentinel, else reading it from the device), fill its
sentinel entries from the supply, and, when the fill did not jump to fin and
placed something, write the inner block back. -/
def doubleGo (fs : FS) (supply : List Nat) : List Nat → DoubleRes
  | [] => ⟨[], fs, supply, false, 0, []⟩
  | e :: rest =>
    let st :=
      if e = SENT then
        let a := allocOne fs.freeList
        (a.1, { fs with freeList := a.2 }, List.replicate 128 SENT)
      else (e, fs, readIndex fs e)
    let r := fillSlots st.2.2 supply
    if r.2.2.1 then
      ⟨st.1 :: rest, st.2.1, r.2.1, true, st.1, r.1⟩
    else
      let fs2 := if r.2.2.2 then st.2.1.writeSector st.1 (.index r.1) else st.2.1
      match rest with
      | [] => ⟨[st.1], fs2, r.2.1, false, st.1, r.1⟩
      | e2 :: rest2 =>
        let res := doubleGo fs2 r.2.1 (e2 :: rest2)
        ⟨st.1 :: res.outer, res.fs, res.supply, res.stopped, res.target, res.inner⟩

/-- The fin block of file_extension: set the length, write the inode sector,
refresh the cached copy, then write back the single-indirect index block if
one was loaded, then the cached inner block to its outer entry and the outer
block itself if the double level was reached, in the order of the source. -/
def finishExt (fs : FS) (ino : Inode) (d : InodeDisk) (modified : Int)
    (lvl1 : Option (List Nat)) (dbl : Option (Nat × List Nat × List Nat)) :
    FS × Inode :=
  let d2 := { d with length := modified }
  let fs1 := fs.writeSector ino.sector (.node d2)
  let ino2 := { ino with data := d2 }
  let fs2 :=
    match lvl1 with
    | none => fs1
    | some l1 => fs1.writeSector d2.single_level (.index l1)
  let fs3 :=
    match dbl with
    | none => fs2
    | some t => (fs2.writeSector t.1 (.index t.2.1)).writeSector d2.double_level (.index t.2.2)
  (fs3, ino2)

/-- file_extension from the source.  Step 1 computes the currently backed and
required sector counts and pops that many sectors from the free map (fewer if
it runs dry).  Step 2 of the source, the zero-fill of the tail of the last
partial sector and of every freshly obtained sector, is commented out in the
code, so no device write happens there.  Step 3 wires the obtained sectors
into sentinel slots tier by tier with an early jump to fin when the supply
runs out, and fin sets length to
old length + (512 - old length mod 512) + obtained * 512 and persists the
inode and the touched index blocks. -/
def file_extension (fs0 : FS) (ino : Inode) (size offset : Int) : FS × Inode :=
  let len := ino.data.length
  let alloc : Int := if len ≠ 0 then (len - 1).tdiv 512 + 1 else 0
  let req : Int := (offset + size - 1).tdiv 512 + 1
  let n : Nat := (req - alloc).toNat
  let slist : List Nat := fs0.freeList.take n
  let fs1 : FS := { fs0 with freeList := fs0.freeList.drop n }
  let obtained : Int := slist.length
  let modified : Int := len + (512 - len.tmod 512 + obtained * 512)
  let d0 := ino.data
  if slist.isEmpty then
    finishExt fs1 ino d0 modified none none
  else
    let rd := fillSlots d0.direct slist
    let d1 := { d0 with direct := rd.1 }
    if rd.2.2.1 then
      finishExt fs1 ino d1 modified none none
    else
      let sstep :=
        if d1.single_level = SENT then
          let a := allocOne fs1.freeList
          ({ d1 with single_level := a.1 }, { fs1 with freeList := a.2 },
            List.replicate 128 SENT)
        else
          (d1, fs1, readIndex fs1 d1.single_level)
      let rs := fillSlots sstep.2.2 rd.2.1
      if rs.2.2.1 then
        finishExt sstep.2.1 ino sstep.1 modified (some rs.1) none
      else
        let dstep :=
          if sstep.1.double_level = SENT then
            let a := allocOne sstep.2.1.freeList
            ({ sstep.1 with double_level := a.1 },
              { sstep.2.1 with freeList := a.2 }, List.replicate 128 SENT)
          else
            (sstep.1, sstep.2.1, readIndex sstep.2.1 sstep.1.double_level)
        let dr := doubleGo dstep.2.1 rs.2.1 dstep.2.2
        finishExt dr.fs ino dstep.1 modified (some rs.1)
          (some (dr.target, dr.inner, dr.outer))

/-- The chunk loop of inode_read_at.  Each pass resolves the sector, computes
chunk_size = min size (min (length - offset) (512 - offset mod 512)), stops
when it is not positive, else reads the sector (whole-sector transfers and
bounce-buffer transfers move the same slice) and appends the chunk slice.
Returns (bytes_read, bytes delivered).  Fuel bounds the iteration count; the
callers pass the byte count, which one-or-more progress per pass makes
sufficient. -/
def readChunks (fs : FS) (d : InodeDisk) : Nat → Int → Int → Int × List Nat
  | 0, _, _ => (0, [])
  | fuel + 1, size, offset =>
    if size ≤ 0 then (0, [])
    else
      let sector_idx := byte_to_sector fs d offset
      let sector_ofs := offset.tmod 512
      let chunk := min size (min (d.length - offset) (512 - sector_ofs))
      if chunk ≤ 0 then (0, [])
      else
        let piece := ((readBytes fs sector_idx).drop sector_ofs.toNat).take chunk.toNat
        let r := readChunks fs d fuel (size - chunk) (offset + chunk)
        (chunk + r.1, piece ++ r.2)

/-- inode_read_at from the source: when offset + size exceeds the cached
length, size is reduced by the excess and a negative result returns 0 bytes
at once; then the chunk loop runs. -/
def inode_read_at (fs : FS) (ino : Inode) (size offset : Int) : Int × List Nat :=
  if offset + size > ino.data.length then
    let size2 := size - (offset + size - ino.data.length)
    if size2 < 0 then (0, [])
    else readChunks fs ino.data size2.toNat size2 offset
  else
    readChunks fs ino.data size.toNat size offset

/-- The chunk loop of inode_write_at.  A chunk that exactly covers a whole
sector is written directly from the source buffer.  For any other chunk the
code enters the bounce-buffer branch, whose acquisition line compares bounce
with malloc instead of assigning it, so bounce stays null and the null check
breaks out of the loop; the read-modify-write lines below it are
unreachable.  Returns (bytes_written, new state). -/
def writeChunks (d : InodeDisk) (buf : List Nat) :
    Nat → FS → Int → Int → Int → Int × FS
  | 0, fs, _, _, _ => (0, fs)
  | fuel + 1, fs, size, offset, written =>
    if size ≤ 0 then (0, fs)
    else
      let sector_idx := byte_to_sector fs d offset
      let sector_ofs := offset.tmod 512
      let chunk := min size (min (d.length - offset) (512 - sector_ofs))
      if chunk ≤ 0 then (0, fs)
      else if sector_ofs = 0 ∧ chunk = 512 then
        let fs2 := fs.writeSector sector_idx (.bytes ((buf.drop written.toNat).take 512))
        let r := writeChunks d buf fuel fs2 (size - chunk) (offset + chunk) (written + chunk)
        (chunk + r.1, r.2)
      else
        (0, fs)

/-- inode_write_at from the source: a nonzero deny_write_cnt returns 0 before
any device access; a write ending past the cached length first runs
file_extension; then the chunk loop runs against the refreshed inode. -/
def inode_write_at (fs : FS) (ino : Inode) (buf : List Nat) (size offset : Int) :
    Int × FS × Inode :=
  if ino.deny_write_cnt ≠ 0 then (0, fs, ino)
  else
    let ext :=
      if offset + size > ino.data.length then file_extension fs ino size offset
      else (fs, ino)
    let r := writeChunks ext.2.data buf size.toNat ext.1 size offset 0
    (r.1, r.2, ext.2)

/-- Walk a pointer array in order as the reclamation loops of inode_close do:
collect entries until the first sentinel, and report whether a sentinel was
hit before the end. -/
def takeUntilSent : List Nat → List Nat × Bool
  | [] => ([], false)
  | x :: xs =>
    if x = SENT then ([], true)
    else
      let r := takeUntilSent xs
      (x :: r.1, r.2)

/-- The double-indirect reclamation loop of inode_close, over the outer
entries: a sentinel outer entry releases the outer block and stops; otherwise
the inner block is read and its targets released up to a sentinel, a sentinel
inside an inner block releasing that inner block and the outer block and
stopping the whole walk; a fully traversed inner block is released and the
walk continues; after the last outer entry the outer block is released. -/
def doubleRelGo (fs : FS) (dbl : Nat) : List Nat → List Nat
  | [] => [dbl]
  | e :: rest =>
    if e = SENT then [dbl]
    else
      let r := takeUntilSent (readIndex fs e)
      if r.2 then r.1 ++ [e, dbl]
      else r.1 ++ [e] ++ doubleRelGo fs dbl rest

/-- The full reclamation sequence of the removed branch of inode_close, in
release order: the descriptor sector, then the direct walk with its jump to
done on a sentinel, then the single-indirect walk releasing the index block
after its targets, then the double-indirect walk. -/
def releaseAll (fs : FS) (d : InodeDisk) (sec : Nat) : List Nat :=
  sec ::
    (let rd := takeUntilSent d.direct
     if rd.2 then rd.1
     else
       rd.1 ++
         (if d.single_level = SENT then []
          else
            let rs := takeUntilSent (readIndex fs d.single_level)
            if rs.2 then rs.1 ++ [d.single_level]
            else
              rs.1 ++ [d.single_level] ++
                (if d.double_level = SENT then []
                 else doubleRelGo fs d.double_level (readIndex fs d.double_level))))

/-- The sectors claim C7 lists as reclaimed, tier by tier: the descriptor
sector; the direct sectors up to the first sentinel; the single-indirect
targets up to the first sentinel followed by the single-indirect block
itself; and the double-indirect walk releasing each inner block after its
targets and the outer block last, stopping at the first sentinel within the
tier and keeping the partial structure traversed.  The tiers are composed by
plain concatenation, with no cross-tier early exit. -/
def claimReachable (fs : FS) (d : InodeDisk) (sec : Nat) : List Nat :=
  sec ::
    ((takeUntilSent d.direct).1 ++
      (if d.single_level = SENT then []
       else (takeUntilSent (readIndex fs d.single_level)).1 ++ [d.single_level]) ++
      (if d.double_level = SENT then []
       else doubleRelGo fs d.double_level (readIndex fs d.double_level)))

/-- Apply a sequence of free_map_release calls. -/
def applyReleases (fs : FS) (l : List Nat) : FS :=
  l.foldl FS.release fs

/-- The whole-module state: the open_inodes registry (front of the list is
the most recently pushed handle) together with the device and allocator. -/
structure RegState where
  inodes : List Inode
  fs : FS

/-- The registry scan of inode_open: bump the open count of the first handle
whose identity sector matches, if any. -/
def openGo (s : Nat) : List Inode → Option (List Inode)
  | [] => none
  | h :: rest =>
    if h.sector = s then some ({ h with open_cnt := h.open_cnt + 1 } :: rest)
    else
      match openGo s rest with
      | none => none
      | some r => some (h :: r)

/-- inode_open from the source, returning the new state and the number of
device reads the call performed: a registry hit reopens the shared handle
with no device access; otherwise a fresh handle is pushed to the front with
open count 1, removed false, deny count 0 and the descriptor read from the
device (one read). -/
def inode_open (st : RegState) (s : Nat) : RegState × Nat :=
  match openGo s st.inodes with
  | some l => ({ st with inodes := l }, 0)
  | none =>
    ({ st with inodes := ⟨s, 1, false, 0, readNode st.fs s⟩ :: st.inodes }, 1)

/-- inode_reopen from the source: a null handle is returned unchanged with no
state change; otherwise the open count of the handle is incremented and the
same handle returned. -/
def inode_reopen (st : RegState) (p : Option Nat) : RegState × Option Nat :=
  match p with
  | none => (st, none)
  | some s =>
    match openGo s st.inodes with
    | some l => ({ st with inodes := l }, some s)
    | none => (st, some s)

/-- The body of inode_close on the first handle matching the identity
sector: decrement the open count; at zero remove the handle from the list
and, when the removed flag is set, run the reclamation walk. -/
def closeGo (s : Nat) : List Inode → FS → List Inode × FS
  | [], fs => ([], fs)
  | h :: rest, fs =>
    if h.sector = s then
      if h.open_cnt - 1 = 0 then
        (rest, if h.removed then applyReleases fs (releaseAll fs h.data h.sector) else fs)
      else
        ({ h with open_cnt := h.open_cnt - 1 } :: rest, fs)
    else
      let r := closeGo s rest fs
      (h :: r.1, r.2)

/-- inode_close from the source: a null pointer is ignored; otherwise the
matched handle is closed. -/
def inode_close (st : RegState) (p : Option Nat) : RegState :=
  match p with
  | none => st
  | some s =>
    let r := closeGo s st.inodes st.fs
    { inodes := r.1, fs := r.2 }

/-- inode_remove from the source: set the removed flag of the matched handle
and nothing else. -/
def markFirst (s : Nat) : List Inode → List Inode
  | [] => []
  | h :: rest =>
    if h.sector = s then { h with removed := true } :: rest
    else h :: markFirst s rest

/-- inode_remove on the whole state. -/
def inode_remove (st : RegState) (s : Nat) : RegState :=
  { st with inodes := markFirst s st.inodes }

/-- n successive inode_open calls on the same sector. -/
def openN : Nat → RegState → Nat → RegState
  | 0, st, _ => st
  | n + 1, st, s => openN n (inode_open st s).1 s

/-- n successive inode_close calls on the same sector. -/
def closeN : Nat → RegState → Nat → RegState
  | 0, st, _ => st
  | n + 1, st, s => closeN n (inode_close st (some s)) s

/-- Residual device content: every otherwise unspecified sector holds 512
bytes of value 3 left over from earlier use. -/
def baseDisk : Nat → SectorData := fun _ => SectorData.bytes (List.replicate 512 3)

/-- A freshly created descriptor: length 0, every pointer slot sentinel. -/
def emptyNode : InodeDisk := ⟨List.replicate 10 SENT, SENT, SENT, 0⟩

/-- C2 scenario state: the descriptor of a freshly created empty file at
sector 1, free sectors 10, 11, 12 available, residual content elsewhere. -/
def fsC2 : FS := ⟨fun n => if n = 1 then .node emptyNode else baseDisk n, [10, 11, 12], []⟩

def inoC2 : Inode := ⟨1, 1, false, 0, emptyNode⟩

def resC2 : Int × FS × Inode := inode_write_at fsC2 inoC2 (List.replicate 1300 65) 1300 0

/-- C2 is false on the code: writing 1300 bytes at offset 0 into a freshly
created empty file sets the length to 2048, not 1300 (the length formula adds
a phantom sector whenever the old length is sector-aligned); the write
transfers only 1024 bytes because the broken scratch-buffer acquisition
aborts the loop at the partial 276-byte chunk, so the third sector keeps its
residual content instead of 276 data bytes and 236 zeros; and a subsequent
read of 2000 bytes returns 2000 bytes, not the 1300 the claim requires. -/
theorem write_1300_scenario_diverges :
    resC2.1 = 1024 ∧
    resC2.2.2.data.length = 2048 ∧
    resC2.2.1.disk 12 = .bytes (List.replicate 512 3) ∧
    (inode_read_at resC2.2.1 resC2.2.2 2000 0).1 = 2000 := by
  decide

/-- C1 scenario state: a file of length 100 whose single data sector is
sector 2 (content bytes 9, including its unused tail), with free sector 3
holding residual bytes 7. -/
def nodeC1 : InodeDisk := ⟨2 :: List.replicate 9 SENT, SENT, SENT, 100⟩

def fsC1 : FS :=
  ⟨fun n =>
      if n = 1 then .node nodeC1
      else if n = 2 then .bytes (List.replicate 512 9)
      else if n = 3 then .bytes (List.replicate 512 7)
      else baseDisk n,
    [3], []⟩

def inoC1 : Inode := ⟨1, 1, false, 0, nodeC1⟩

def resC1 : Int × FS × Inode := inode_write_at fsC1 inoC1 [65] 1 600

/-- C1 is false on the code: the zero-fill step of file_extension is
commented out.  Extending the length-100 file by a one-byte write at offset
600 wires free sector 3 into direct slot 1 and advertises length 1024, yet
sector 3 keeps its residual bytes 7 and the unused tail of the old last
sector keeps its bytes 9: reading offset 700 (inside the newly wired, never
overwritten sector) returns 7 and reading offset 300 (the old tail) returns
9, where the claim requires 0 in both places. -/
theorem extension_exposes_residual_bytes :
    resC1.1 = 0 ∧
    resC1.2.2.data.length = 1024 ∧
    byte_to_sector resC1.2.1 resC1.2.2.data 700 = 3 ∧
    inode_read_at resC1.2.1 resC1.2.2 1 700 = (1, [7]) ∧
    inode_read_at resC1.2.1 resC1.2.2 1 300 = (1, [9]) := by
  decide

/-- C6 scenario state: a one-sector file of length 512 at descriptor sector
1, data sector 2 holding bytes 9. -/
def nodeC6 : InodeDisk := ⟨2 :: List.replicate 9 SENT, SENT, SENT, 512⟩

def fsC6 : FS :=
  ⟨fun n =>
      if n = 1 then .node nodeC6
      else if n = 2 then .bytes (List.replicate 512 9)
      else baseDisk n,
    [], []⟩

def inoC6 : Inode := ⟨1, 1, false, 0, nodeC6⟩

/-- C6 is false on the code: a 100-byte write at offset 0 of a 512-byte file
is a partial chunk, and the scratch-buffer branch compares bounce with
malloc instead of assigning it, so the null check breaks out of the loop.
The call returns 0 bytes written and changes nothing on the device - no
pre-read, no splice, no write-back ever happens for a partial chunk (and the
pre-read condition that follows would in any case skip the read for every
partial chunk starting at in-sector offset 0, zeroing the preserved tail). -/
theorem partial_write_never_splices :
    inode_write_at fsC6 inoC6 (List.replicate 100 65) 100 0 = (0, fsC6, inoC6) ∧
    inode_read_at fsC6 inoC6 100 0 = (100, List.replicate 100 9) := by
  exact ⟨rfl, by decide⟩

/-- C4: a nonzero deny-write count makes inode_write_at return 0 bytes
written before any extension or device access: the state, and with it every
on-disk sector, is returned bit-for-bit unchanged. -/
theorem write_denied_is_noop (fs : FS) (ino : Inode) (buf : List Nat)
    (size offset : Int) (h : ino.deny_write_cnt ≠ 0) :
    inode_write_at fs ino buf size offset = (0, fs, ino) := by
  simp [inode_write_at, h]

/-- A handle with one active deny-write. -/
def denyIno : Inode := ⟨1, 1, false, 1, nodeC6⟩

theorem write_denied_is_noop_witness :
    denyIno.deny_write_cnt ≠ 0 ∧
    inode_write_at fsC6 denyIno (List.replicate 100 65) 100 0 = (0, fsC6, denyIno) :=
  ⟨by decide, write_denied_is_noop fsC6 denyIno (List.replicate 100 65) 100 0 (by decide)⟩

/-- The read chunk loop transfers exactly its (clamped) size when that size
equals the bytes left in the file, each pass making at least one byte of
progress within the current sector. -/
theorem readChunks_count (fs : FS) (d : InodeDisk) :
    ∀ (fuel : Nat) (size offset : Int), 0 ≤ offset → size = d.length - offset →
      size.toNat ≤ fuel → (readChunks fs d fuel size offset).1 = max 0 size := by
  intro fuel
  induction fuel with
  | zero =>
    intro size offset h0 hs hf
    simp only [readChunks]
    omega
  | succ f ih =>
    intro size offset h0 hs hf
    by_cases hsz : size ≤ 0
    · simp only [readChunks, if_pos hsz]
      omega
    · have hmodeq : offset.tmod 512 = offset.emod 512 := Int.tmod_eq_emod h0 (by norm_num)
      have hmodlo : 0 ≤ offset.tmod 512 := Int.tmod_nonneg 512 h0
      have hmodhi : offset.tmod 512 < 512 := by
        rw [hmodeq]; exact Int.emod_lt_of_pos offset (by norm_num)
      simp only [readChunks, if_neg hsz]
      have hcpos : 0 < min size (min (d.length - offset) (512 - offset.tmod 512)) := by
        rw [lt_min_iff, lt_min_iff]
        refine ⟨by omega, by omega, by omega⟩
      rw [if_neg (by omega : ¬ min size (min (d.length - offset) (512 - offset.tmod 512)) ≤ 0)]
      have hcle : min size (min (d.length - offset) (512 - offset.tmod 512)) ≤ size :=
        min_le_left _ _
      have ihres :=
        ih (size - min size (min (d.length - offset) (512 - offset.tmod 512)))
          (offset + min size (min (d.length - offset) (512 - offset.tmod 512)))
          (by omega) (by omega) (by omega)
      simp only [ihres]
      omega

/-- C3: a read whose end offset passes the cached length returns exactly
max 0 (length - offset) bytes; when it returns anything at all, the bytes end
exactly at the length, so no file content past the length is delivered, and a
zero-or-negative clamped size returns 0 at once. -/
theorem read_clamped_to_length (fs : FS) (ino : Inode) (size offset : Int)
    (h0 : 0 ≤ offset) (hover : offset + size > ino.data.length) :
    (inode_read_at fs ino size offset).1 = max 0 (ino.data.length - offset) ∧
    (0 < (inode_read_at fs ino size offset).1 →
      offset + (inode_read_at fs ino size offset).1 = ino.data.length) := by
  have hmain : (inode_read_at fs ino size offset).1 = max 0 (ino.data.length - offset) := by
    simp only [inode_read_at, if_pos hover]
    by_cases hneg : size - (offset + size - ino.data.length) < 0
    · simp only [if_pos hneg]
      omega
    · simp only [if_neg hneg]
      rw [readChunks_count fs ino.data _ _ offset h0 (by omega) (le_refl _)]
      omega
  refine ⟨hmain, ?_⟩
  rw [hmain]
  intro hpos
  omega

theorem read_clamped_to_length_witness :
    (0 : Int) ≤ 0 ∧ 0 + 600 > inoC6.data.length ∧
    ((inode_read_at fsC6 inoC6 600 0).1 = max 0 (inoC6.data.length - 0) ∧
      (0 < (inode_read_at fsC6 inoC6 600 0).1 →
        0 + (inode_read_at fsC6 inoC6 600 0).1 = inoC6.data.length)) :=
  ⟨by decide, by decide, read_clamped_to_length fsC6 inoC6 600 0 (by decide) (by decide)⟩

/-- C10: inode_close ignores a null handle and changes nothing; inode_reopen
returns a null handle unchanged and changes nothing; neither looks at any
handle state. -/
theorem null_handle_close_reopen_noop (st : RegState) :
    inode_close st none = st ∧ inode_reopen st none = (st, none) :=
  ⟨rfl, rfl⟩

/-- Everything about a handle except its removed flag. -/
def projNoFlag (h : Inode) : Nat × Int × Int × InodeDisk :=
  (h.sector, h.open_cnt, h.deny_write_cnt, h.data)

theorem markFirst_projNoFlag (s : Nat) :
    ∀ l : List Inode, (markFirst s l).map projNoFlag = l.map projNoFlag := by
  intro l
  induction l with
  | nil => rfl
  | cons h rest ih =>
    by_cases hh : h.sector = s
    · simp [markFirst, hh, projNoFlag]
    · simp [markFirst, hh, ih]

/-- Closing a handle whose open count stays positive only decrements it: the
device, free map and release log are untouched. -/
theorem closeGo_keeps_fs (s : Nat) :
    ∀ (pre : List Inode) (h : Inode) (post : List Inode) (fs : FS),
      (∀ h2 ∈ pre, h2.sector ≠ s) → h.sector = s → h.open_cnt - 1 ≠ 0 →
      closeGo s (pre ++ h :: post) fs =
        (pre ++ { h with open_cnt := h.open_cnt - 1 } :: post, fs) := by
  intro pre
  induction pre with
  | nil =>
    intro h post fs _ hsec hcnt
    simp [closeGo, hsec, hcnt]
  | cons h2 rest ih =>
    intro h post fs hpre hsec hcnt
    have hh2 : h2.sector ≠ s := hpre h2 (List.mem_cons_self h2 rest)
    have hrest : ∀ h3 ∈ rest, h3.sector ≠ s := fun h3 hm => hpre h3 (List.mem_cons_of_mem h2 hm)
    simp [closeGo, hh2, ih h post fs hrest hsec hcnt]

/-- C8: inode_remove only sets the removed flag - the device, the free map
and the release log are untouched and every other handle field is kept - and
closing a handle whose open count stays positive releases nothing either, so
no sector of a removed file returns to the allocator before the final
close. -/
theorem remove_defers_reclamation (st : RegState) (s : Nat) :
    (inode_remove st s).fs = st.fs ∧
    (inode_remove st s).inodes.map projNoFlag = st.inodes.map projNoFlag ∧
    (∀ (pre : List Inode) (h : Inode) (post : List Inode),
      st.inodes = pre ++ h :: post → (∀ h2 ∈ pre, h2.sector ≠ s) → h.sector = s →
      2 ≤ h.open_cnt → (inode_close st (some s)).fs = st.fs) := by
  refine ⟨rfl, markFirst_projNoFlag s st.inodes, ?_⟩
  intro pre h post hsplit hpre hsec hcnt
  simp only [inode_close, hsplit]
  rw [closeGo_keeps_fs s pre h post st.fs hpre hsec (by omega)]

/-- A doubly opened, already removed handle. -/
def removedIno : Inode := ⟨1, 2, true, 0, nodeC6⟩

/-- A registry holding only that handle. -/
def stC8 : RegState := ⟨[removedIno], fsC6⟩

theorem remove_defers_reclamation_witness :
    (stC8.inodes = [] ++ removedIno :: [] ∧ removedIno.sector = 1 ∧
      2 ≤ removedIno.open_cnt) ∧
    (inode_remove stC8 1).fs = stC8.fs ∧
    (inode_remove stC8 1).inodes.map projNoFlag = stC8.inodes.map projNoFlag ∧
    (inode_close stC8 (some 1)).fs = stC8.fs :=
  ⟨⟨rfl, rfl, by decide⟩, (remove_defers_reclamation stC8 1).1,
    (remove_defers_reclamation stC8 1).2.1,
    (remove_defers_reclamation stC8 1).2.2 [] removedIno [] rfl (by simp) rfl (by decide)⟩

theorem openGo_eq_none (s : Nat) :
    ∀ l : List Inode, (∀ h ∈ l, h.sector ≠ s) → openGo s l = none := by
  intro l
  induction l with
  | nil => intro _; rfl
  | cons h rest ih =>
    intro hall
    have hh : h.sector ≠ s := hall h (List.mem_cons_self h rest)
    simp [openGo, hh, ih (fun x hm => hall x (List.mem_cons_of_mem h hm))]

theorem openGo_none_not_mem (s : Nat) :
    ∀ l : List Inode, openGo s l = none → ∀ h ∈ l, h.sector ≠ s := by
  intro l
  induction l with
  | nil => intro _ h hm; cases hm
  | cons h2 rest ih =>
    intro hr h hm
    simp only [openGo] at hr
    by_cases hh : h2.sector = s
    · rw [if_pos hh] at hr; cases hr
    · rw [if_neg hh] at hr
      cases hmatch : openGo s rest with
      | none =>
        cases hm with
        | head => exact hh
        | tail _ hm2 => exact ih hmatch h hm2
      | some r2 => rw [hmatch] at hr; cases hr

theorem openGo_found (s : Nat) :
    ∀ (pre : List Inode) (h : Inode) (post : List Inode),
      (∀ h2 ∈ pre, h2.sector ≠ s) → h.sector = s →
      openGo s (pre ++ h :: post) =
        some (pre ++ { h with open_cnt := h.open_cnt + 1 } :: post) := by
  intro pre
  induction pre with
  | nil => intro h post _ hsec; simp [openGo, hsec]
  | cons h2 rest ih =>
    intro h post hpre hsec
    have hh2 : h2.sector ≠ s := hpre h2 (List.mem_cons_self h2 rest)
    simp [openGo, hh2, ih h post (fun x hm => hpre x (List.mem_cons_of_mem h2 hm)) hsec]

theorem openGo_map_sector (s : Nat) :
    ∀ (l r : List Inode), openGo s l = some r →
      r.map (fun h => h.sector) = l.map (fun h => h.sector) := by
  intro l
  induction l with
  | nil => intro r hr; simp [openGo] at hr
  | cons h rest ih =>
    intro r hr
    simp only [openGo] at hr
    by_cases hh : h.sector = s
    · rw [if_pos hh] at hr
      cases hr
      simp
    · rw [if_neg hh] at hr
      cases hmatch : openGo s rest with
      | none => rw [hmatch] at hr; cases hr
      | some r2 =>
        rw [hmatch] at hr
        cases hr
        simp [ih r2 hmatch]

/-- Opening an already registered sector n more times only raises the front
handle open count by n. -/
theorem openN_bumps (s : Nat) (d : InodeDisk) (rm : Bool) (dw : Int) :
    ∀ (n : Nat) (k : Int) (rest : List Inode) (fs : FS),
      openN n ⟨⟨s, k, rm, dw, d⟩ :: rest, fs⟩ s = ⟨⟨s, k + n, rm, dw, d⟩ :: rest, fs⟩ := by
  intro n
  induction n with
  | zero => intro k rest fs; simp [openN]
  | succ m ih =>
    intro k rest fs
    have hopen : (inode_open ⟨⟨s, k, rm, dw, d⟩ :: rest, fs⟩ s).1 =
        ⟨⟨s, k + 1, rm, dw, d⟩ :: rest, fs⟩ := by
      simp [inode_open, openGo]
    simp only [openN]
    rw [hopen, ih (k + 1) rest fs]
    have harith : k + 1 + (m : Int) = k + ((m + 1 : Nat) : Int) := by push_cast; ring
    rw [harith]

/-- n + 1 closes of a front handle whose open count is 1 + n drop it from
the registry and, with the removed flag clear, leave the device and
allocator untouched. -/
theorem closeN_unwinds (s : Nat) (d : InodeDisk) (dw : Int) :
    ∀ (n : Nat) (rest : List Inode) (fs : FS),
      closeN (n + 1) ⟨⟨s, 1 + (n : Int), false, dw, d⟩ :: rest, fs⟩ s = ⟨rest, fs⟩ := by
  intro n
  induction n with
  | zero =>
    intro rest fs
    simp [closeN, inode_close, closeGo]
  | succ m ih =>
    intro rest fs
    have hne : (1 : Int) + ((m + 1 : Nat) : Int) - 1 ≠ 0 := by push_cast; omega
    have harith : (1 : Int) + ((m + 1 : Nat) : Int) - 1 = 1 + (m : Int) := by
      push_cast; ring
    have hclose : inode_close ⟨⟨s, 1 + ((m + 1 : Nat) : Int), false, dw, d⟩ :: rest, fs⟩
        (some s) = ⟨⟨s, 1 + (m : Int), false, dw, d⟩ :: rest, fs⟩ := by
      simp [inode_close, closeGo, hne, harith]
      have hne2 : ((m : Int)) + 1 ≠ 0 := by omega
      rw [if_neg hne2]
      refine ⟨?_, rfl⟩
      rw [add_comm ((m : Int)) 1]
    simp only [closeN]
    rw [hclose]
    exact ih rest fs

/-- C9: with distinct registry sectors, inode_open keeps them distinct; a
hit bumps the open count of the one matching handle in place and performs no
device read; a miss pushes a fresh handle with open count 1, removed clear,
deny count 0 and the descriptor read from the device in exactly one read;
and n opens of an unregistered sector followed by n closes restore the state
exactly, the sector gone from the registry. -/
theorem open_deduplicates_registry (st : RegState) (s : Nat)
    (hnd : (st.inodes.map (fun h => h.sector)).Nodup) :
    ((inode_open st s).1.inodes.map (fun h => h.sector)).Nodup ∧
    (∀ (pre : List Inode) (h : Inode) (post : List Inode),
      st.inodes = pre ++ h :: post → (∀ h2 ∈ pre, h2.sector ≠ s) → h.sector = s →
      inode_open st s =
        ({ st with inodes := pre ++ { h with open_cnt := h.open_cnt + 1 } :: post }, 0)) ∧
    ((∀ h ∈ st.inodes, h.sector ≠ s) →
      inode_open st s =
        ({ st with inodes := ⟨s, 1, false, 0, readNode st.fs s⟩ :: st.inodes }, 1)) ∧
    ((∀ h ∈ st.inodes, h.sector ≠ s) → ∀ n : Nat, closeN n (openN n st s) s = st) := by
  refine ⟨?_, ?_, ?_, ?_⟩
  · cases hmatch : openGo s st.inodes with
    | some l =>
      simp only [inode_open, hmatch]
      rw [openGo_map_sector s st.inodes l hmatch]
      exact hnd
    | none =>
      simp only [inode_open, hmatch, List.map_cons]
      refine List.nodup_cons.mpr ⟨?_, hnd⟩
      intro hmem
      obtain ⟨h, hm, hsec⟩ := List.mem_map.mp hmem
      exact openGo_none_not_mem s st.inodes hmatch h hm hsec
  · intro pre h post hsplit hpre hsec
    simp only [inode_open, hsplit, openGo_found s pre h post hpre hsec]
  · intro habs
    simp only [inode_open, openGo_eq_none s st.inodes habs]
  · intro habs n
    cases n with
    | zero => rfl
    | succ m =>
      have hopen1 : (inode_open st s).1 =
          ⟨⟨s, 1, false, 0, readNode st.fs s⟩ :: st.inodes, st.fs⟩ := by
        simp only [inode_open, openGo_eq_none s st.inodes habs]
      simp only [openN]
      rw [hopen1, openN_bumps s (readNode st.fs s) false 0 m 1 st.inodes st.fs,
        closeN_unwinds s (readNode st.fs s) 0 m st.inodes st.fs]

/-- An empty registry over the C6 device. -/
def stEmpty : RegState := ⟨[], fsC6⟩

/-- The registry after one open of sector 5. -/
def stOne : RegState := (inode_open stEmpty 5).1

theorem open_deduplicates_registry_witness :
    (stEmpty.inodes.map (fun h => h.sector)).Nodup ∧
    inode_open stEmpty 5 =
      ({ stEmpty with inodes := [⟨5, 1, false, 0, readNode stEmpty.fs 5⟩] }, 1) ∧
    inode_open stOne 5 =
      ({ stOne with
          inodes := [] ++ ⟨5, (1 : Int) + 1, false, 0, readNode stEmpty.fs 5⟩ :: [] }, 0) ∧
    closeN 2 (openN 2 stEmpty 5) 5 = stEmpty :=
  ⟨by decide,
    (open_deduplicates_registry stEmpty 5 (by decide)).2.2.1 (by decide),
    (open_deduplicates_registry stOne 5 (by decide)).2.1
      [] ⟨5, 1, false, 0, readNode stEmpty.fs 5⟩ [] rfl (by decide) rfl,
    (open_deduplicates_registry stEmpty 5 (by decide)).2.2.2 (by decide) 2⟩

theorem takeUntilSent_hit (l : List Nat) : (takeUntilSent l).2 = true ↔ SENT ∈ l := by
  induction l with
  | nil => simp [takeUntilSent]
  | cons x xs ih =>
    by_cases hx : x = SENT
    · simp [takeUntilSent, hx]
    · simp [takeUntilSent, hx, Ne.symm hx, ih]

theorem applyReleases_spec (l : List Nat) :
    ∀ fs : FS, applyReleases fs l = ⟨fs.disk, fs.freeList ++ l, fs.released ++ l⟩ := by
  induction l with
  | nil => intro fs; simp [applyReleases]
  | cons x xs ih =>
    intro fs
    have hstep : applyReleases fs (x :: xs) = applyReleases (fs.release x) xs := rfl
    rw [hstep, ih]
    simp [FS.release]

/-- Under the no-interior-holes layout of the data model - a sentinel in the
direct tier implies no single-indirect block, no single-indirect block
implies no double-indirect block, and a sentinel among the single-indirect
targets implies no double-indirect block - the release walk of inode_close,
with its cross-tier jumps to done, releases exactly the per-tier reachable
sectors of claim C7. -/
theorem releaseAll_eq_claimReachable (fs : FS) (d : InodeDisk) (sec : Nat)
    (hA : SENT ∈ d.direct → d.single_level = SENT)
    (hB : d.single_level = SENT → d.double_level = SENT)
    (hC : SENT ∈ readIndex fs d.single_level → d.double_level = SENT) :
    releaseAll fs d sec = claimReachable fs d sec := by
  unfold releaseAll claimReachable
  by_cases hd : (takeUntilSent d.direct).2 = true
  · have hs := hA ((takeUntilSent_hit d.direct).mp hd)
    have hdb := hB hs
    simp [hd, hs, hdb]
  · have hd2 : (takeUntilSent d.direct).2 = false := by
      cases hb : (takeUntilSent d.direct).2 with
      | true => exact absurd hb hd
      | false => rfl
    by_cases hs : d.single_level = SENT
    · have hdb := hB hs
      simp [hd2, hs, hdb]
    · by_cases hsingle : (takeUntilSent (readIndex fs d.single_level)).2 = true
      · have hdb := hC ((takeUntilSent_hit _).mp hsingle)
        simp [hd2, hs, hsingle, hdb]
      · have hsingle2 : (takeUntilSent (readIndex fs d.single_level)).2 = false := by
          cases hb : (takeUntilSent (readIndex fs d.single_level)).2 with
          | true => exact absurd hb hsingle
          | false => rfl
        simp [hd2, hs, hsingle2, List.append_assoc]

/-- The close scan on the first matching handle with open count 1: the
handle leaves the registry and, exactly when its removed flag is set, the
reclamation walk runs. -/
theorem closeGo_final (s : Nat) :
    ∀ (pre : List Inode) (h : Inode) (post : List Inode) (fs : FS),
      (∀ h2 ∈ pre, h2.sector ≠ s) → h.sector = s → h.open_cnt = 1 →
      closeGo s (pre ++ h :: post) fs =
        (pre ++ post,
          if h.removed then applyReleases fs (releaseAll fs h.data h.sector) else fs) := by
  intro pre
  induction pre with
  | nil =>
    intro h post fs _ hsec hone
    simp [closeGo, hsec, hone]
  | cons h2 rest ih =>
    intro h post fs hpre hsec hone
    have hh2 : h2.sector ≠ s := hpre h2 (List.mem_cons_self h2 rest)
    simp [closeGo, hh2,
      ih h post fs (fun x hm => hpre x (List.mem_cons_of_mem h2 hm)) hsec hone]

/-- C7: the last close of a handle whose removed flag is set releases to the
allocator exactly the claim C7 walk - descriptor sector, direct sectors to
the first sentinel, single-indirect targets to the first sentinel then the
single-indirect block, then the double-indirect walk - leaving every device
sector content untouched; the handle leaves the registry whether or not the
removed flag was set. -/
theorem close_reclaims_exactly_reachable (st : RegState) (s : Nat)
    (pre : List Inode) (h : Inode) (post : List Inode)
    (hsplit : st.inodes = pre ++ h :: post)
    (hpre : ∀ h2 ∈ pre, h2.sector ≠ s)
    (hsec : h.sector = s)
    (hone : h.open_cnt = 1)
    (hA : SENT ∈ h.data.direct → h.data.single_level = SENT)
    (hB : h.data.single_level = SENT → h.data.double_level = SENT)
    (hC : SENT ∈ readIndex st.fs h.data.single_level → h.data.double_level = SENT) :
    (inode_close st (some s)).inodes = pre ++ post ∧
    (h.removed = true →
      (inode_close st (some s)).fs.released =
        st.fs.released ++ claimReachable st.fs h.data h.sector ∧
      (inode_close st (some s)).fs.freeList =
        st.fs.freeList ++ claimReachable st.fs h.data h.sector ∧
      (inode_close st (some s)).fs.disk = st.fs.disk) ∧
    (h.removed = false → (inode_close st (some s)).fs = st.fs) := by
  have hcl : inode_close st (some s) =
      ⟨pre ++ post,
        if h.removed then applyReleases st.fs (releaseAll st.fs h.data h.sector)
        else st.fs⟩ := by
    simp only [inode_close, hsplit, closeGo_final s pre h post st.fs hpre hsec hone]
  rw [hcl]
  refine ⟨rfl, ?_, ?_⟩
  · intro hrm
    simp only [hrm, if_true]
    rw [applyReleases_spec, releaseAll_eq_claimReachable st.fs h.data h.sector hA hB hC]
    exact ⟨rfl, rfl, rfl⟩
  · intro hrm
    simp [hrm]

/-- A removed, singly open two-sector file for the C7 witness. -/
def nodeC7 : InodeDisk := ⟨[2, 3] ++ List.replicate 8 SENT, SENT, SENT, 1024⟩

def inoC7 : Inode := ⟨1, 1, true, 0, nodeC7⟩

def stC7 : RegState := ⟨[inoC7], fsC6⟩

theorem close_reclaims_exactly_reachable_witness :
    (stC7.inodes = [] ++ inoC7 :: [] ∧ inoC7.sector = 1 ∧ inoC7.open_cnt = 1 ∧
      inoC7.removed = true) ∧
    (inode_close stC7 (some 1)).inodes = [] ++ [] ∧
    (inode_close stC7 (some 1)).fs.released =
      stC7.fs.released ++ claimReachable stC7.fs inoC7.data inoC7.sector :=
  ⟨⟨rfl, rfl, rfl, rfl⟩,
    (close_reclaims_exactly_reachable stC7 1 [] inoC7 [] rfl (by decide) rfl rfl
      (by decide) (by decide) (by decide)).1,
    ((close_reclaims_exactly_reachable stC7 1 [] inoC7 [] rfl (by decide) rfl rfl
      (by decide) (by decide) (by decide)).2.1 rfl).1⟩
